import Mathlib

/-!
Shallow embedding of the private-cloud repository (Rust): the shared
signed-request protocol (shared/src/lib.rs), the server storage layer and
handlers (server/src/storage.rs, server/src/handlers.rs) and the client
orchestrator (client/src/main.rs, client/src/api.rs), together with
theorems settling the specification claims.

Byte strings are modelled as lists of naturals (each < 256 where it
matters), Rust paths as a flag for absoluteness plus the list of
components kept by Path::components (empty and "." components dropped,
".." kept), and the external crates bs58 (base-58 codec, implemented
faithfully below) and ed25519-dalek / blake3 (abstracted as a structure of
deterministic functions, since signing and hashing are external to the
repository).
-/

deriving instance DecidableEq for Except

abbrev Bytes := List Nat

/-- ASCII bytes of a string literal (all literals used here are ASCII,
where UTF-8 coincides with the code points). -/
def strBytes (s : String) : Bytes := s.toList.map Char.toNat

/-- The base-58 alphabet of the bs58 crate, as ASCII byte values. -/
def ALPHABET : Bytes :=
  strBytes "123456789ABCDEFGHJKLMNPQRSTUVWXYZabcdefghijkmnopqrstuvwxyz"

/-- Number of leading occurrences of the byte v. -/
def countLeading (v : Nat) : Bytes → Nat
  | [] => 0
  | x :: t => if x = v then countLeading v t + 1 else 0

/-- Little-endian digits of n in base b, with explicit fuel (the fuel
makes the recursion structural; with fuel at least n it agrees with
Nat.digits). -/
def toBase (b : Nat) : Nat → Nat → List Nat
  | 0, _ => []
  | _ + 1, 0 => []
  | fuel + 1, n => n % b :: toBase b fuel (n / b)

/-- Little-endian base-b digits of n. -/
def natDigitsLE (b n : Nat) : List Nat := toBase b n n

/-- The natural number denoted by a big-endian digit list in base b. -/
def beToNat (b : Nat) (l : List Nat) : Nat := Nat.ofDigits b l.reverse

/-- bs58::encode on a byte string: one alphabet-zero character per leading
zero byte, then the big-endian base-58 digits of the remaining bytes read
as a big-endian base-256 number, mapped through the alphabet. -/
def bs58encode (bytes : Bytes) : Bytes :=
  let z := countLeading 0 bytes
  let n := beToNat 256 (bytes.drop z)
  List.replicate z 49 ++ ((natDigitsLE 58 n).reverse.map (fun d => ALPHABET.getD d 0))

/-- Value of one base-58 character (none when outside the alphabet). -/
def b58val (c : Nat) : Option Nat := ALPHABET.indexOf? c

/-- Decode every character of a base-58 string, failing on the first
character outside the alphabet. -/
def decodeVals : Bytes → Option (List Nat)
  | [] => some []
  | c :: t =>
    match b58val c, decodeVals t with
    | some v, some vs => some (v :: vs)
    | _, _ => none

/-- bs58::decode on a byte string: one zero byte per leading
alphabet-zero character, then the big-endian base-256 bytes of the
remaining characters read as a big-endian base-58 number. -/
def bs58decode (s : Bytes) : Option Bytes :=
  let z := countLeading 49 s
  (decodeVals (s.drop z)).map
    (fun vals =>
      let n := Nat.ofDigits 58 vals.reverse
      List.replicate z 0 ++ (natDigitsLE 256 n).reverse)

/-! ## Paths (std::path semantics used by the repository) -/

/-- A Rust path as seen through Path::components: whether it is absolute,
and the retained components (empty and "." components are dropped by the
iterator, ".." is kept as a component). Byte 47 is the separator, byte 46
a dot. -/
structure RPath where
  absolute : Bool
  comps : List Bytes
deriving DecidableEq, Repr

/-- Split a byte string on every occurrence of the byte v. -/
def splitOnByte (v : Nat) : Bytes → List Bytes
  | [] => [[]]
  | x :: t =>
    if x = v then [] :: splitOnByte v t
    else
      match splitOnByte v t with
      | h :: r => (x :: h) :: r
      | [] => [[x]]

/-- A component Path::components keeps: non-empty and not ".". -/
def keptComp (c : Bytes) : Bool := !(c = [] || c = [46])

/-- Parse a byte string into the RPath that Path::components yields for
it (inner "." and empty components dropped; a path is absolute when it
begins with the separator). -/
def parseRPath (s : Bytes) : RPath :=
  ⟨s.head? = some 47, (splitOnByte 47 s).filter keptComp⟩

/-- Path::join with a byte-string argument: an absolute argument replaces
the whole path, a relative one is appended. -/
def RPath.joinParsed (p : RPath) (s : Bytes) : RPath :=
  let q := parseRPath s
  if q.absolute then q else ⟨p.absolute, p.comps ++ q.comps⟩

/-- Path::starts_with: component-wise prefix test, with the root
component participating like any other (no normalization of ".."). -/
def RPath.startsWith (p q : RPath) : Bool :=
  if q.absolute then p.absolute && q.comps.isPrefixOf p.comps
  else if p.absolute then q.comps.isEmpty
  else q.comps.isPrefixOf p.comps

/-- Path::file_stem on one component: the part before the last dot,
unless that part is empty or there is no dot, in which case the whole
component. -/
def fileStem (c : Bytes) : Bytes :=
  match (c.reverse).dropWhile (· ≠ 46) with
  | [] => c
  | [_] => c
  | _ :: rest => rest.reverse

/-- Path::extension on one component: the part after the last dot, when
the part before it is non-empty. -/
def extOf (c : Bytes) : Option Bytes :=
  match (c.reverse).dropWhile (· ≠ 46) with
  | [] => none
  | [_] => none
  | _ :: _ => some ((c.reverse).takeWhile (· ≠ 46)).reverse

/-- PathBuf::set_extension on one component: stem plus a dot plus the new
extension (the new extension is never empty in this code base). -/
def setExtComp (c ext : Bytes) : Bytes :=
  if ext = [] then fileStem c else fileStem c ++ [46] ++ ext

/-- Path::with_extension: replaces the extension of the final component;
a path without a file name (no components, or ending in "..") is returned
unchanged, mirroring set_extension returning false. -/
def RPath.withExtension (p : RPath) (ext : Bytes) : RPath :=
  match p.comps.getLast? with
  | none => p
  | some c => if c = [46, 46] then p else ⟨p.absolute, p.comps.dropLast ++ [setExtComp c ext]⟩

/-- Lexical normalization of ".." components (each pops the preceding
component; at the top it is absorbed, as the OS does at the root). Used
only to state what a resolved path means on the real file system. -/
def normComps (cs : List Bytes) : List Bytes :=
  cs.foldl (fun acc c => if c = [46, 46] then acc.dropLast else acc ++ [c]) []

/-- The path p, once the OS resolves ".." segments, is the root or a
descendant of the root. -/
def insideNorm (root p : RPath) : Prop :=
  p.absolute = root.absolute ∧ root.comps.isPrefixOf (normComps p.comps) = true

instance (root p : RPath) : Decidable (insideNorm root p) := by
  unfold insideNorm
  infer_instance

/-! ## Signed requests (shared/src/lib.rs) -/

/-- Freshness window in seconds (MAX_CLIENT_TIME_DIFF). -/
def MAX_CLIENT_TIME_DIFF : Nat := 60

/-- SignableRequest: resource name bytes, raw verifying-key bytes, and
the asserted unix time. -/
structure SignableRequest where
  filename : Bytes
  pubkey : Bytes
  time : Nat
deriving DecidableEq, Repr

/-- u64::abs_diff on naturals (truncated subtraction makes one side 0). -/
def absDiff (a b : Nat) : Nat := (a - b) + (b - a)

/-- Little-endian fixed-width integer encoding on k bytes, as borsh lays
out u32 and u64. -/
def leBytes : Nat → Nat → Bytes
  | 0, _ => []
  | k + 1, n => n % 256 :: leBytes k (n / 256)

/-- The manual BorshSerialize impl for SignableRequest: length-prefixed
resource-name bytes, then the raw 32 key bytes (borsh writes fixed arrays
with no prefix), then the u64 time. -/
def serialize_borsh (r : SignableRequest) : Bytes :=
  leBytes 4 r.filename.length ++ r.filename ++ r.pubkey ++ leBytes 8 r.time

/-- The external ed25519-dalek and blake3 crates, abstracted: signing and
hashing are deterministic functions; verifyDigest takes the whole byte
stream fed to the Hasher (the hash itself is folded into the function). -/
structure Crypto where
  signStrict : Bytes → Bytes → Bytes
  verifyStrict : Bytes → Bytes → Bytes → Bool
  signDigest : Bytes → Bytes → Bytes
  verifyDigest : Bytes → Bytes → Bytes → Bool
  pkOf : Bytes → Bytes

/-- SignableRequest::check_signature: reject when the clock difference
exceeds the window, otherwise verify the strict signature over the
canonical borsh encoding. now stands for the server-side unix_time(). -/
def check_signature (E : Crypto) (now : Nat) (r : SignableRequest) (sig : Bytes) :
    Except String Unit :=
  if absDiff now r.time > MAX_CLIENT_TIME_DIFF then
    .error "Time difference is too high"
  else if E.verifyStrict r.pubkey (serialize_borsh r) sig then .ok ()
  else .error "Request signature verification failed"

/-! ## Storage (server/src/storage.rs) -/

/-- The extension given to the commit-signature file. -/
def SIG_EXT : Bytes := strBytes "sig"

/-- storage::get_file_paths: join the base-58 identity and the resource
name under the storage root, reject when the result does not satisfy
Path::starts_with of the root, and derive the signature path by replacing
the extension with "sig". -/
def get_file_paths (storage_path : RPath) (pubkey : Bytes) (filename : Bytes) :
    Except String (RPath × RPath) :=
  let pk := bs58encode pubkey
  let path := (storage_path.joinParsed pk).joinParsed filename
  if path.startsWith storage_path then .ok (path, path.withExtension SIG_EXT)
  else .error "Trying to get path outside storage directory"

/-- The server storage tree: an association list from paths to file
contents, most recent write first. -/
abbrev SFS := List (RPath × Bytes)

/-- Read a file (the most recent write to that path). -/
def fsRead (fs : SFS) (p : RPath) : Option Bytes :=
  (fs.find? (fun e => e.1 == p)).map (fun e => e.2)

/-- Write (create or overwrite) a file. -/
def fsWrite (fs : SFS) (p : RPath) (c : Bytes) : SFS := (p, c) :: fs

/-- FileWriter::finalize: resolve the final paths, require a parent
directory, write the signature file, then rename the temp file onto the
payload path (in that order). The temp-file handle is taken out of the
writer before any fallible step. -/
def FileWriter.finalize (fs : SFS) (storage : RPath) (filename pubkey signature tempContent : Bytes) :
    Except String SFS :=
  match get_file_paths storage pubkey filename with
  | .error e => .error e
  | .ok (file_path, signature_path) =>
    if file_path.comps = [] then .error "Unable to get parent directory"
    else .ok (fsWrite (fsWrite fs signature_path signature) file_path tempContent)

/-! ## Upload and download pipelines (server/src/handlers.rs) -/

/-- State of the receiving loop: the bytes fed to the Hasher and the
bytes appended to the temp file. -/
structure WBState where
  hacc : Bytes
  disk : Bytes
deriving DecidableEq, Repr

/-- One iteration of the inner loop of write_body on one chunk slice: the
Hasher is updated first, then the chunk is appended to the temp file;
appendOk tells whether the append succeeds. -/
def processChunk (st : WBState) (chunk : Bytes) (appendOk : Bool) : WBState × Bool :=
  let st1 : WBState := ⟨st.hacc ++ chunk, st.disk⟩
  if appendOk then (⟨st1.hacc, st1.disk ++ chunk⟩, true) else (st1, false)

/-- handlers::write_body over the whole stream: each item is either a
received chunk or a stream error that aborts the loop (disk appends that
succeed are the processChunk appendOk steps). -/
def write_body (st : WBState) : List (Except String Bytes) → Except (String × WBState) WBState
  | [] => .ok st
  | .error e :: _ => .error (e, st)
  | .ok chunk :: rest => write_body (processChunk st chunk true).1 rest

/-- Signature::from_slice after bs58 decoding of a header value: a
64-byte string or an error. -/
def decodeSignatureB58 (s : Bytes) : Except String Bytes :=
  match bs58decode s with
  | none => .error "base58 decode error"
  | some v => if v.length = 64 then .ok v else .error "signature: wrong length"

/-- VerifyingKey::try_from after bs58 decoding of a header value: a
32-byte string or an error (curve-point validity lives in the abstract
Crypto functions). -/
def decodePubkeyB58 (s : Bytes) : Except String Bytes :=
  match bs58decode s with
  | none => .error "base58 decode error"
  | some v => if v.length = 32 then .ok v else .error "pubkey: wrong length"

/-- Outcome of one upload request: the response value (Ok maps to status
200, an error to 500), the resulting storage tree, and whether a
temporary file is left behind in the scratch area. -/
structure UploadOutcome where
  response : Except String Unit
  fs : SFS
  tempLeft : Bool
deriving DecidableEq, Repr

/-- handlers::upload_internal: decode the header fields, check the
request signature, stream the body into a fresh temp file while hashing,
verify the asserted payload signature against the digest, and commit via
finalize. A stream error runs drop_temp_file; a digest failure drops the
writer (its Drop impl removes the temp file); an error inside finalize
happens after the handle was taken, so the temp file stays. -/
def upload_internal (E : Crypto) (now : Nat) (storage : RPath) (filename pubkeyB58 : Bytes)
    (time : Nat) (reqSigB58 fileSigB58 : Bytes) (body : List (Except String Bytes))
    (fs : SFS) : UploadOutcome :=
  match decodePubkeyB58 pubkeyB58 with
  | .error e => ⟨.error e, fs, false⟩
  | .ok pubkey =>
  match decodeSignatureB58 reqSigB58 with
  | .error e => ⟨.error e, fs, false⟩
  | .ok request_signature =>
  match decodeSignatureB58 fileSigB58 with
  | .error e => ⟨.error e, fs, false⟩
  | .ok file_signature =>
  let upload_request : SignableRequest := ⟨filename, pubkey, time⟩
  match check_signature E now upload_request request_signature with
  | .error e => ⟨.error e, fs, false⟩
  | .ok _ =>
  match write_body ⟨[], []⟩ body with
  | .error (e, _) => ⟨.error e, fs, false⟩
  | .ok st =>
    if E.verifyDigest pubkey st.hacc file_signature then
      match FileWriter.finalize fs storage filename pubkey file_signature st.disk with
      | .ok fs2 => ⟨.ok (), fs2, false⟩
      | .error e => ⟨.error e, fs, true⟩
    else ⟨.error "Digest verification failed", fs, false⟩

/-- A download response: the base-58 payload-signature header, and the
payload body as a lazy stream that fails when the file is missing (the
file is only opened when the body is polled). -/
structure DownloadResp where
  fileSigHeader : Bytes
  body : Option Bytes
deriving DecidableEq, Repr

/-- handlers::download_internal: decode the header fields, check the
request signature, resolve the paths, read the signature file eagerly
(a missing one is an error), and build the 200 response with the
signature header and the lazily opened payload stream. -/
def download_internal (E : Crypto) (now : Nat) (storage : RPath) (filename pubkeyB58 : Bytes)
    (time : Nat) (reqSigB58 : Bytes) (fs : SFS) : Except String DownloadResp :=
  match decodeSignatureB58 reqSigB58 with
  | .error e => .error e
  | .ok request_signature =>
  match decodePubkeyB58 pubkeyB58 with
  | .error e => .error e
  | .ok pubkey =>
  let download_request : SignableRequest := ⟨filename, pubkey, time⟩
  match check_signature E now download_request request_signature with
  | .error e => .error e
  | .ok _ =>
  match get_file_paths storage pubkey filename with
  | .error e => .error e
  | .ok (file_path, signature_path) =>
  match fsRead fs signature_path with
  | none => .error "No such file or directory"
  | some signature => .ok ⟨bs58encode signature, fsRead fs file_path⟩

/-- handlers::process_result: an Ok reply keeps its status (200 here), an
error becomes INTERNAL_SERVER_ERROR. -/
def statusOf {A : Type} : Except String A → Nat
  | .ok _ => 200
  | .error _ => 500

/-! ## Client orchestrator (client/src/main.rs, client/src/api.rs) -/

/-- The header fields HttpClient::push sends. -/
structure PushWire where
  filename : Bytes
  pubkeyB58 : Bytes
  time : Nat
  reqSigB58 : Bytes
  fileSigB58 : Bytes
deriving DecidableEq, Repr

/-- Client push preparation: digest and sign the content, build and sign
the request, and encode the header fields. -/
def clientPushWire (E : Crypto) (sk filename : Bytes) (t : Nat) (content : Bytes) : PushWire :=
  let file_signature := E.signDigest sk content
  let request : SignableRequest := ⟨filename, E.pkOf sk, t⟩
  let request_signature := E.signStrict sk (serialize_borsh request)
  ⟨filename, bs58encode (E.pkOf sk), t, bs58encode request_signature, bs58encode file_signature⟩

/-- HttpClient::push after the wire is built: a transport-level send
error is returned to the caller; any received response, whatever its
status, is only reported on stdout or stderr and push returns Ok. -/
def HttpClient.push (wire : PushWire) (send : PushWire → Except String (Nat × Bytes)) :
    Except String Unit :=
  match send wire with
  | .error e => .error e
  | .ok _statusAndBody => .ok ()

/-- The tail of client pull once the body was received into the scratch
file: recompute the signature over the received bytes, reject on
mismatch, otherwise join the resource name under the download directory,
assert the starts_with guard, and persist the scratch file there. -/
def pull_promote (E : Crypto) (sk filename : Bytes) (download_dir : RPath)
    (file_signature_from_server received : Bytes) (dfs : SFS) : Except String (RPath × SFS) :=
  let file_signature := E.signDigest sk received
  if file_signature = file_signature_from_server then
    let new_name := download_dir.joinParsed filename
    if new_name.startsWith download_dir then .ok (new_name, fsWrite dfs new_name received)
    else .error "assertion failed: new_name.starts_with(download_dir)"
  else .error "Signature mismatch"

/-- One whole push as the server sees it: the client wire fields feed
upload_internal with the content as the body stream. -/
def pushExchange (E : Crypto) (sk filename : Bytes) (t now : Nat) (content : Bytes)
    (storage : RPath) (fs : SFS) : UploadOutcome :=
  let w := clientPushWire E sk filename t content
  upload_internal E now storage w.filename w.pubkeyB58 w.time w.reqSigB58 w.fileSigB58
    [.ok content] fs

/-- One whole pull: the client builds and signs a fresh request, the
server answers via download_internal, api::pull decodes the signature
header and streams the body into the scratch file, and main::pull
recomputes and compares the signature before promoting. Returns the
destination path, the updated download tree, and the received bytes. -/
def pullExchange (E : Crypto) (sk filename : Bytes) (t now : Nat) (storage : RPath)
    (fs : SFS) (download_dir : RPath) (dfs : SFS) : Except String (RPath × SFS × Bytes) :=
  let request : SignableRequest := ⟨filename, E.pkOf sk, t⟩
  let request_signature := E.signStrict sk (serialize_borsh request)
  match download_internal E now storage filename (bs58encode (E.pkOf sk)) t
      (bs58encode request_signature) fs with
  | .error e => .error e
  | .ok resp =>
    match decodeSignatureB58 resp.fileSigHeader with
    | .error e => .error e
    | .ok file_signature_from_server =>
    match resp.body with
    | none => .error "error copying response body"
    | some received =>
      match pull_promote E sk filename download_dir file_signature_from_server received dfs with
      | .error e => .error e
      | .ok (dest, dfs2) => .ok (dest, dfs2, received)

/-! ## A concrete instantiation of the abstract crypto functions -/

/-- A degenerate but well-typed instantiation of the abstract crypto
structure, used to evaluate the pipelines on concrete inputs: every
signature is 64 zero bytes, verification compares against that constant,
and the verifying key is the secret key bytes themselves. -/
def trivCrypto : Crypto where
  signStrict := fun _ _ => List.replicate 64 0
  verifyStrict := fun _ _ s => s == List.replicate 64 0
  signDigest := fun _ _ => List.replicate 64 0
  verifyDigest := fun _ _ s => s == List.replicate 64 0
  pkOf := fun sk => sk

/-- The all-zero 32-byte identity key used in concrete runs. -/
def skZero : Bytes := List.replicate 32 0

/-- The storage root "/st" used in concrete runs. -/
def storZ : RPath := ⟨true, [strBytes "st"]⟩

/-- The download directory "dl" used in concrete runs. -/
def dlZ : RPath := ⟨false, [strBytes "dl"]⟩

/-! ## Lemmas: base conversion and the base-58 codec -/

theorem toBase_eq_digits (b : Nat) (hb : 1 < b) :
    ∀ fuel n, n ≤ fuel → toBase b fuel n = Nat.digits b n := by
  intro fuel
  induction fuel with
  | zero =>
    intro n hn
    have : n = 0 := Nat.le_zero.mp hn
    subst this
    simp [toBase]
  | succ k ih =>
    intro n hn
    match n with
    | 0 => simp [toBase]
    | m + 1 =>
      have hdiv : (m + 1) / b < m + 1 := Nat.div_lt_self (Nat.succ_pos m) hb
      have hle : (m + 1) / b ≤ k := by omega
      rw [show toBase b (k + 1) (m + 1) = (m + 1) % b :: toBase b k ((m + 1) / b) from rfl,
        ih _ hle, Nat.digits_def' hb (Nat.succ_pos m)]

theorem countLeading_append_replicate (v z : Nat) (l : Bytes) (h : l.head? ≠ some v) :
    countLeading v (List.replicate z v ++ l) = z := by
  induction z with
  | zero =>
    cases l with
    | nil => simp [countLeading]
    | cons x t =>
      simp only [List.replicate_zero, List.nil_append, countLeading]
      have hx : x ≠ v := by
        intro hxv
        exact h (by simp [hxv])
      simp [hx]
  | succ k ih =>
    simp [List.replicate_succ, countLeading, ih]

theorem replicate_countLeading_append_drop (v : Nat) (l : Bytes) :
    List.replicate (countLeading v l) v ++ l.drop (countLeading v l) = l := by
  induction l with
  | nil => simp [countLeading]
  | cons x t ih =>
    by_cases hx : x = v
    · subst hx
      simp [countLeading, List.replicate_succ, ih]
    · simp [countLeading, hx]

theorem head_drop_countLeading (v : Nat) (l : Bytes) :
    (l.drop (countLeading v l)).head? ≠ some v := by
  induction l with
  | nil => simp [countLeading]
  | cons x t ih =>
    by_cases hx : x = v
    · subst hx
      simpa [countLeading] using ih
    · simp [countLeading, hx]

theorem ofDigits_pos {b : Nat} (hb : 0 < b) {L : List Nat} {x : Nat} (hx : x ∈ L)
    (hx0 : x ≠ 0) : 0 < Nat.ofDigits b L := by
  induction L with
  | nil => cases hx
  | cons d t ih =>
    rw [Nat.ofDigits_cons]
    rcases List.mem_cons.mp hx with h1 | hmem
    · subst h1
      have : 0 < x := Nat.pos_of_ne_zero hx0
      omega
    · have h1 : 0 < Nat.ofDigits b t := ih hmem
      have h2 : 0 < b * Nat.ofDigits b t := Nat.mul_pos hb h1
      omega

theorem b58val_alphabet : ∀ d : Fin 58, b58val (ALPHABET.getD d.val 0) = some d.val := by
  decide

theorem alphabet_getD_ne_49 : ∀ d : Fin 58, d.val ≠ 0 → ALPHABET.getD d.val 0 ≠ 49 := by
  decide

theorem mem_alphabet_getD : ∀ d : Fin 58, ALPHABET.getD d.val 0 ∈ ALPHABET := by
  decide

theorem alphabet_no_sep : 47 ∉ ALPHABET ∧ 46 ∉ ALPHABET := by decide

theorem decodeVals_map (l : List Nat) (h : ∀ d ∈ l, d < 58) :
    decodeVals (l.map (fun d => ALPHABET.getD d 0)) = some l := by
  induction l with
  | nil => rfl
  | cons d t ih =>
    have hd : d < 58 := h d (List.mem_cons_self d t)
    have ht : decodeVals (t.map (fun d => ALPHABET.getD d 0)) = some t :=
      ih (fun x hx => h x (List.mem_cons_of_mem d hx))
    have hv : b58val (ALPHABET.getD d 0) = some d := b58val_alphabet ⟨d, hd⟩
    simp only [List.map_cons, decodeVals]
    rw [hv, ht]

theorem bs58encode_eq (z : Nat) (rest : Bytes) (hhead : rest.head? ≠ some 0) :
    bs58encode (List.replicate z 0 ++ rest) =
      List.replicate z 49 ++
        ((natDigitsLE 58 (beToNat 256 rest)).reverse.map (fun d => ALPHABET.getD d 0)) := by
  have hcl : countLeading 0 (List.replicate z 0 ++ rest) = z :=
    countLeading_append_replicate 0 z rest hhead
  have hdrop : (List.replicate z 0 ++ rest).drop z = rest := by
    simp
  simp only [bs58encode, hcl, hdrop]

theorem bs58decode_eq (z : Nat) (tl : Bytes) (hhead : tl.head? ≠ some 49) :
    bs58decode (List.replicate z 49 ++ tl) =
      (decodeVals tl).map
        (fun vals => List.replicate z 0 ++ (natDigitsLE 256 (Nat.ofDigits 58 vals.reverse)).reverse) := by
  have hcl : countLeading 49 (List.replicate z 49 ++ tl) = z :=
    countLeading_append_replicate 49 z tl hhead
  have hdrop : (List.replicate z 49 ++ tl).drop z = tl := by
    simp
  simp only [bs58decode, hcl, hdrop]

theorem bs58_roundtrip_aux (z : Nat) (rest : Bytes) (hhead : rest.head? ≠ some 0)
    (hrest : ∀ x ∈ rest, x < 256) :
    bs58decode (bs58encode (List.replicate z 0 ++ rest)) = some (List.replicate z 0 ++ rest) := by
  rw [bs58encode_eq z rest hhead]
  cases rest with
  | nil =>
    have htl : (natDigitsLE 58 (beToNat 256 ([] : Bytes))).reverse.map
        (fun d => ALPHABET.getD d 0) = [] := rfl
    rw [htl, bs58decode_eq z [] (by simp)]
    simp [decodeVals, natDigitsLE, toBase, Nat.ofDigits]
  | cons hd t =>
    have hne0 : hd ≠ 0 := by
      intro h0
      exact hhead (by simp [h0])
    set n := beToNat 256 (hd :: t) with hn
    have hpos : 0 < n := by
      have hmem : hd ∈ (hd :: t).reverse := List.mem_reverse.mpr (List.mem_cons_self hd t)
      exact ofDigits_pos (by norm_num) hmem hne0
    have hnne : n ≠ 0 := hpos.ne'
    have hdig : natDigitsLE 58 n = Nat.digits 58 n := toBase_eq_digits 58 (by norm_num) n n le_rfl
    have hdignil : Nat.digits 58 n ≠ [] := Nat.digits_ne_nil_iff_ne_zero.mpr hnne
    have hlast : (Nat.digits 58 n).getLast hdignil ≠ 0 := Nat.getLast_digit_ne_zero 58 hnne
    have hlastlt : (Nat.digits 58 n).getLast hdignil < 58 :=
      Nat.digits_lt_base (by norm_num) (List.getLast_mem hdignil)
    have htlhead : ((natDigitsLE 58 n).reverse.map (fun d => ALPHABET.getD d 0)).head? ≠
        some 49 := by
      rw [hdig, List.head?_map, List.head?_reverse, List.getLast?_eq_getLast _ hdignil]
      intro hcontra
      exact alphabet_getD_ne_49 ⟨_, hlastlt⟩ hlast (Option.some.inj (by simpa using hcontra))
    rw [bs58decode_eq z _ htlhead]
    have hvals : decodeVals ((natDigitsLE 58 n).reverse.map (fun d => ALPHABET.getD d 0)) =
        some ((Nat.digits 58 n).reverse) := by
      rw [hdig]
      exact decodeVals_map _
        (fun d hd2 => Nat.digits_lt_base (by norm_num) (List.mem_reverse.mp hd2))
    rw [hvals]
    have h256 : Nat.digits 256 n = (hd :: t).reverse := by
      rw [hn]
      apply Nat.digits_ofDigits 256 (by norm_num)
      · intro x hxmem
        exact hrest x (List.mem_reverse.mp hxmem)
      · intro hne
        have h1 : ((hd :: t).reverse).getLast? = some hd := by
          rw [List.getLast?_reverse]
          rfl
        rw [List.getLast?_eq_getLast _ hne] at h1
        intro h0
        exact hne0 (by rw [← Option.some.inj h1, h0])
    have hnatle : natDigitsLE 256 n = Nat.digits 256 n :=
      toBase_eq_digits 256 (by norm_num) n n le_rfl
    simp only [Option.map_some', List.reverse_reverse, Nat.ofDigits_digits, hnatle, h256]

theorem bs58_roundtrip (b : Bytes) (hb : ∀ x ∈ b, x < 256) :
    bs58decode (bs58encode b) = some b := by
  have hsplit := replicate_countLeading_append_drop 0 b
  have hhead := head_drop_countLeading 0 b
  have haux := bs58_roundtrip_aux (countLeading 0 b) (b.drop (countLeading 0 b)) hhead
    (fun x hx => hb x (List.mem_of_mem_drop hx))
  rw [hsplit] at haux
  exact haux

theorem bs58encode_inj {a b : Bytes} (ha : ∀ x ∈ a, x < 256) (hb : ∀ x ∈ b, x < 256)
    (h : bs58encode a = bs58encode b) : a = b := by
  have h1 := bs58_roundtrip a ha
  rw [h, bs58_roundtrip b hb] at h1
  exact (Option.some.inj h1).symm

/-! ## Lemmas: fixed-width integers and the canonical encoding -/

theorem leBytes_length (k : Nat) : ∀ n, (leBytes k n).length = k := by
  induction k with
  | zero => intro n; rfl
  | succ m ih => intro n; simp [leBytes, ih]

theorem leBytes_inj (k : Nat) :
    ∀ m n, m < 256 ^ k → n < 256 ^ k → leBytes k m = leBytes k n → m = n := by
  induction k with
  | zero =>
    intro m n hm hn _
    simp [pow_zero] at hm hn
    omega
  | succ k ih =>
    intro m n hm hn h
    simp only [leBytes, List.cons.injEq] at h
    have hm2 : m / 256 < 256 ^ k := by
      apply Nat.div_lt_of_lt_mul
      rw [pow_succ'] at hm
      omega
    have hn2 : n / 256 < 256 ^ k := by
      apply Nat.div_lt_of_lt_mul
      rw [pow_succ'] at hn
      omega
    have := ih (m / 256) (n / 256) hm2 hn2 h.2
    omega

theorem serialize_borsh_inj (r1 r2 : SignableRequest)
    (hl1 : r1.filename.length < 2 ^ 32) (hl2 : r2.filename.length < 2 ^ 32)
    (hp1 : r1.pubkey.length = 32) (hp2 : r2.pubkey.length = 32)
    (ht1 : r1.time < 2 ^ 64) (ht2 : r2.time < 2 ^ 64)
    (h : serialize_borsh r1 = serialize_borsh r2) : r1 = r2 := by
  unfold serialize_borsh at h
  rw [List.append_assoc, List.append_assoc, List.append_assoc, List.append_assoc] at h
  have h256 : (256 : Nat) ^ 4 = 2 ^ 32 := by norm_num
  have h2568 : (256 : Nat) ^ 8 = 2 ^ 64 := by norm_num
  obtain ⟨hA, hrest⟩ := List.append_inj h (by simp [leBytes_length])
  have hlen : r1.filename.length = r2.filename.length :=
    leBytes_inj 4 _ _ (h256 ▸ hl1) (h256 ▸ hl2) hA
  obtain ⟨hF, hrest2⟩ := List.append_inj hrest hlen
  obtain ⟨hP, hT⟩ := List.append_inj hrest2 (hp1.trans hp2.symm)
  have htime : r1.time = r2.time :=
    leBytes_inj 8 _ _ (h2568 ▸ ht1) (h2568 ▸ ht2) hT
  cases r1
  cases r2
  simp_all

/-! ## Lemmas: paths and the storage namespace -/

theorem splitOnByte_no_sep (v : Nat) (s : Bytes) (h : v ∉ s) : splitOnByte v s = [s] := by
  induction s with
  | nil => rfl
  | cons x t ih =>
    have hx : x ≠ v := fun hxv => h (by simp [hxv])
    have ht := ih (fun hm => h (List.mem_cons_of_mem x hm))
    simp only [splitOnByte, if_neg hx, ht]

theorem parseRPath_single (s : Bytes) (h47 : 47 ∉ s) (hne : s ≠ []) (hdot : s ≠ [46]) :
    parseRPath s = ⟨false, [s]⟩ := by
  unfold parseRPath
  rw [splitOnByte_no_sep 47 s h47]
  have hhead : ¬s.head? = some 47 := by
    cases s with
    | nil => simp
    | cons x t =>
      simp only [List.head?_cons, Option.some.injEq]
      exact fun hx => h47 (by simp [hx])
  simp [keptComp, hne, hdot, hhead]

theorem joinParsed_rel (p : RPath) (s : Bytes) (h47 : 47 ∉ s) (hne : s ≠ []) (hdot : s ≠ [46]) :
    p.joinParsed s = ⟨p.absolute, p.comps ++ [s]⟩ := by
  unfold RPath.joinParsed
  rw [parseRPath_single s h47 hne hdot]
  simp

theorem joinParsed_of_rel (p : RPath) (s : Bytes) (hrel : (parseRPath s).absolute = false) :
    p.joinParsed s = ⟨p.absolute, p.comps ++ (parseRPath s).comps⟩ := by
  simp [RPath.joinParsed, hrel]

theorem startsWith_append (a : Bool) (cs ds : List Bytes) :
    RPath.startsWith ⟨a, cs ++ ds⟩ ⟨a, cs⟩ = true := by
  have hpre : cs.isPrefixOf (cs ++ ds) = true :=
    List.isPrefixOf_iff_prefix.mpr (List.prefix_append cs ds)
  unfold RPath.startsWith
  cases a <;> simp [hpre]

theorem bs58encode_mem_alphabet (b : Bytes) : ∀ x ∈ bs58encode b, x ∈ ALPHABET := by
  intro x hx
  simp only [bs58encode] at hx
  rcases List.mem_append.mp hx with h1 | h2
  · rw [List.eq_of_mem_replicate h1]
    decide
  · obtain ⟨d, hd, rfl⟩ := List.mem_map.mp h2
    have hdig : natDigitsLE 58 (beToNat 256 (b.drop (countLeading 0 b))) =
        Nat.digits 58 (beToNat 256 (b.drop (countLeading 0 b))) :=
      toBase_eq_digits 58 (by norm_num) _ _ le_rfl
    rw [hdig] at hd
    have hdlt : d < 58 :=
      Nat.digits_lt_base (by norm_num) (List.mem_reverse.mp hd)
    exact mem_alphabet_getD ⟨d, hdlt⟩

theorem bs58encode_no47 (b : Bytes) : 47 ∉ bs58encode b :=
  fun h => alphabet_no_sep.1 (bs58encode_mem_alphabet b 47 h)

theorem bs58encode_ne_dot (b : Bytes) : bs58encode b ≠ [46] := by
  intro h
  have h46 : 46 ∈ bs58encode b := by
    rw [h]
    simp
  exact alphabet_no_sep.2 (bs58encode_mem_alphabet b 46 h46)

theorem bs58encode_ne_nil {b : Bytes} (hb : ∀ x ∈ b, x < 256) (hne : b ≠ []) :
    bs58encode b ≠ [] := by
  intro h
  have hrt := bs58_roundtrip b hb
  rw [h] at hrt
  have hnil : bs58decode [] = some [] := rfl
  rw [hnil] at hrt
  exact hne (Option.some.inj hrt).symm

theorem get_file_paths_rel (storage : RPath) (pubkey filename : Bytes)
    (hp : ∀ x ∈ pubkey, x < 256) (hpne : pubkey ≠ [])
    (hrel : (parseRPath filename).absolute = false) :
    get_file_paths storage pubkey filename =
      .ok (⟨storage.absolute, (storage.comps ++ [bs58encode pubkey]) ++ (parseRPath filename).comps⟩,
        RPath.withExtension
          ⟨storage.absolute, (storage.comps ++ [bs58encode pubkey]) ++ (parseRPath filename).comps⟩
          SIG_EXT) := by
  have h1 : storage.joinParsed (bs58encode pubkey) =
      ⟨storage.absolute, storage.comps ++ [bs58encode pubkey]⟩ :=
    joinParsed_rel storage (bs58encode pubkey) (bs58encode_no47 pubkey)
      (bs58encode_ne_nil hp hpne) (bs58encode_ne_dot pubkey)
  have h2 : RPath.joinParsed ⟨storage.absolute, storage.comps ++ [bs58encode pubkey]⟩ filename =
      ⟨storage.absolute, (storage.comps ++ [bs58encode pubkey]) ++ (parseRPath filename).comps⟩ :=
    joinParsed_of_rel _ filename hrel
  have hsw : RPath.startsWith
      ⟨storage.absolute, (storage.comps ++ [bs58encode pubkey]) ++ (parseRPath filename).comps⟩
      storage = true := by
    have hx := startsWith_append storage.absolute storage.comps
      ([bs58encode pubkey] ++ (parseRPath filename).comps)
    rw [← List.append_assoc] at hx
    exact hx
  simp only [get_file_paths, h1, h2, hsw]
  simp

/-! ## Lemmas: storage tree, receiving loop, header decoding -/

theorem fsRead_write_self (fs : SFS) (p : RPath) (c : Bytes) :
    fsRead (fsWrite fs p c) p = some c := by
  simp [fsRead, fsWrite, List.find?]

theorem fsRead_write_other (fs : SFS) (p q : RPath) (c : Bytes) (h : q ≠ p) :
    fsRead (fsWrite fs q c) p = fsRead fs p := by
  have hb : (q == p) = false := beq_eq_false_iff_ne.mpr h
  simp [fsRead, fsWrite, List.find?, hb]

theorem write_body_all_ok (chunks : List Bytes) :
    ∀ st : WBState, write_body st (chunks.map Except.ok) =
      .ok ⟨st.hacc ++ chunks.flatten, st.disk ++ chunks.flatten⟩ := by
  induction chunks with
  | nil => intro st; simp [write_body]
  | cons c t ih =>
    intro st
    simp [write_body, processChunk, ih, List.flatten]

theorem write_body_stream_error (pre : List Bytes) (e : String)
    (rest : List (Except String Bytes)) :
    ∀ st : WBState, write_body st (pre.map Except.ok ++ Except.error e :: rest) =
      .error (e, ⟨st.hacc ++ pre.flatten, st.disk ++ pre.flatten⟩) := by
  induction pre with
  | nil => intro st; simp [write_body]
  | cons c t ih =>
    intro st
    simp [write_body, processChunk, ih, List.flatten]

theorem decodePubkeyB58_encode (pk : Bytes) (hb : ∀ x ∈ pk, x < 256) (hlen : pk.length = 32) :
    decodePubkeyB58 (bs58encode pk) = .ok pk := by
  simp [decodePubkeyB58, bs58_roundtrip pk hb, hlen]

theorem decodeSignatureB58_encode (sg : Bytes) (hb : ∀ x ∈ sg, x < 256) (hlen : sg.length = 64) :
    decodeSignatureB58 (bs58encode sg) = .ok sg := by
  simp [decodeSignatureB58, bs58_roundtrip sg hb, hlen]

theorem check_signature_ok (E : Crypto) (now : Nat) (r : SignableRequest) (sig : Bytes)
    (hfresh : absDiff now r.time ≤ MAX_CLIENT_TIME_DIFF)
    (hver : E.verifyStrict r.pubkey (serialize_borsh r) sig = true) :
    check_signature E now r sig = .ok () := by
  unfold check_signature
  rw [if_neg (by omega), hver]
  simp

/-! ## Lemmas: extensions and the resolver output -/

theorem dropWhile_head_not {p : Nat → Bool} {l : Bytes} {a : Nat} {r : Bytes}
    (h : l.dropWhile p = a :: r) : p a = false := by
  induction l with
  | nil => cases h
  | cons x t ih =>
    rw [List.dropWhile_cons] at h
    by_cases hp : p x
    · rw [if_pos hp] at h
      exact ih h
    · rw [if_neg hp] at h
      rw [← (List.cons.inj h).1]
      exact Bool.not_eq_true _ ▸ eq_false_of_ne_true hp

theorem ext_decomp (c e : Bytes) (h : extOf c = some e) : c = fileStem c ++ [46] ++ e := by
  unfold extOf at h
  cases hdw : (c.reverse).dropWhile (· ≠ 46) with
  | nil => rw [hdw] at h; cases h
  | cons x r =>
    cases r with
    | nil => rw [hdw] at h; cases h
    | cons y r2 =>
      rw [hdw] at h
      have he : e = ((c.reverse).takeWhile (· ≠ 46)).reverse := (Option.some.inj h).symm
      have hx : x = 46 := by
        have hhd := dropWhile_head_not hdw
        simpa using hhd
      have hstem : fileStem c = (y :: r2).reverse := by
        unfold fileStem
        rw [hdw]
      have hsplit := List.takeWhile_append_dropWhile (· ≠ 46) c.reverse
      rw [hdw] at hsplit
      subst hx
      rw [hstem, he]
      calc c = (List.takeWhile (· ≠ 46) c.reverse ++ 46 :: y :: r2).reverse := by
              rw [hsplit, List.reverse_reverse]
        _ = (46 :: y :: r2).reverse ++ (List.takeWhile (· ≠ 46) c.reverse).reverse := by
              rw [List.reverse_append]
        _ = (y :: r2).reverse ++ [46] ++ (List.takeWhile (· ≠ 46) c.reverse).reverse := by
              rw [List.reverse_cons]

theorem setExt_self (c : Bytes) (h : extOf c = some SIG_EXT) : setExtComp c SIG_EXT = c := by
  have hd := ext_decomp c SIG_EXT h
  unfold setExtComp
  rw [if_neg (by decide)]
  exact hd.symm

theorem withExtension_self (p : RPath) (c : Bytes) (hlast : p.comps.getLast? = some c)
    (hdd : c ≠ [46, 46]) (hext : extOf c = some SIG_EXT) :
    p.withExtension SIG_EXT = p := by
  unfold RPath.withExtension
  rw [hlast]
  simp only [if_neg hdd]
  rw [setExt_self c hext]
  have hne : p.comps ≠ [] := by
    intro h0
    rw [h0] at hlast
    cases hlast
  have hg : p.comps.getLast hne = c := by
    rw [List.getLast?_eq_getLast _ hne] at hlast
    exact Option.some.inj hlast
  have hdl := List.dropLast_append_getLast hne
  rw [hg] at hdl
  rw [hdl]

theorem get_file_paths_ok_snd (storage : RPath) (pk f : Bytes) (p sp : RPath)
    (h : get_file_paths storage pk f = .ok (p, sp)) : sp = p.withExtension SIG_EXT := by
  simp only [get_file_paths] at h
  split at h
  · rw [Except.ok.injEq, Prod.mk.injEq] at h
    rw [← h.1, ← h.2]
  · cases h

theorem finalize_eq (fs : SFS) (storage : RPath) (f pk sig content : Bytes) (p sp : RPath)
    (hgfp : get_file_paths storage pk f = .ok (p, sp)) (hne : p.comps ≠ []) :
    FileWriter.finalize fs storage f pk sig content =
      .ok (fsWrite (fsWrite fs sp sig) p content) := by
  unfold FileWriter.finalize
  rw [hgfp]
  simp [hne]

theorem write_body_single (c : Bytes) :
    write_body ⟨[], []⟩ [Except.ok c] = .ok ⟨c, c⟩ := by
  simp [write_body, processChunk]

/-! ## Claims -/

/-- C3: check_signature rejects every request whose asserted timestamp is
strictly more than 60 seconds from the verification-time clock, whatever
the signature; and it succeeds exactly when the timestamp is within the
window and the strict verification over the canonical encoding passes. -/
theorem c3_freshness_window (E : Crypto) (now : Nat) (r : SignableRequest) (sig : Bytes) :
    (MAX_CLIENT_TIME_DIFF < absDiff now r.time →
      check_signature E now r sig = .error "Time difference is too high") ∧
    (check_signature E now r sig = .ok () ↔
      absDiff now r.time ≤ MAX_CLIENT_TIME_DIFF ∧
        E.verifyStrict r.pubkey (serialize_borsh r) sig = true) := by
  refine ⟨fun h => ?_, ?_, fun h => check_signature_ok E now r sig h.1 h.2⟩
  · unfold check_signature
    rw [if_pos (by omega)]
  · intro h
    unfold check_signature at h
    by_cases h1 : absDiff now r.time > MAX_CLIENT_TIME_DIFF
    · rw [if_pos h1] at h
      cases h
    · rw [if_neg h1] at h
      by_cases h2 : E.verifyStrict r.pubkey (serialize_borsh r) sig = true
      · exact ⟨by omega, h2⟩
      · rw [if_neg h2] at h
        cases h

/-- Witness for C3 at concrete inputs: a 100-second-old request is
rejected even though trivCrypto would verify it, and a fresh well-signed
request passes. -/
theorem c3_freshness_window_witness :
    check_signature trivCrypto 100 ⟨strBytes "a", skZero, 0⟩ (List.replicate 64 0) =
      .error "Time difference is too high" ∧
    check_signature trivCrypto 0 ⟨strBytes "a", skZero, 0⟩ (List.replicate 64 0) = .ok () :=
  ⟨(c3_freshness_window trivCrypto 100 ⟨strBytes "a", skZero, 0⟩ (List.replicate 64 0)).1
      (by decide),
    (c3_freshness_window trivCrypto 0 ⟨strBytes "a", skZero, 0⟩ (List.replicate 64 0)).2.mpr
      (by decide)⟩

/-- C5: the canonical borsh encoding of a SignableRequest is
deterministic and injective on the field tuple, for in-range field sizes
(resource name below 4 GiB, 32-byte key, u64 time). -/
theorem c5_canonical_encoding_inj (r1 r2 : SignableRequest)
    (hl1 : r1.filename.length < 2 ^ 32) (hl2 : r2.filename.length < 2 ^ 32)
    (hp1 : r1.pubkey.length = 32) (hp2 : r2.pubkey.length = 32)
    (ht1 : r1.time < 2 ^ 64) (ht2 : r2.time < 2 ^ 64) :
    serialize_borsh r1 = serialize_borsh r2 ↔
      (r1.filename = r2.filename ∧ r1.pubkey = r2.pubkey ∧ r1.time = r2.time) := by
  constructor
  · intro h
    have heq := serialize_borsh_inj r1 r2 hl1 hl2 hp1 hp2 ht1 ht2 h
    rw [heq]
    exact ⟨rfl, rfl, rfl⟩
  · intro ⟨h1, h2, h3⟩
    unfold serialize_borsh
    rw [h1, h2, h3]

/-- Witness for C5 at concrete requests differing only in the resource
name: the encodings agree exactly when the fields agree. -/
theorem c5_canonical_encoding_inj_witness :
    (strBytes "ab").length < 2 ^ 32 ∧
    (serialize_borsh ⟨strBytes "ab", skZero, 5⟩ = serialize_borsh ⟨strBytes "ba", skZero, 5⟩ ↔
      (strBytes "ab" = strBytes "ba" ∧ skZero = skZero ∧ (5 : Nat) = 5)) :=
  ⟨by decide,
    c5_canonical_encoding_inj ⟨strBytes "ab", skZero, 5⟩ ⟨strBytes "ba", skZero, 5⟩
      (by decide) (by decide) (by decide) (by decide) (by decide) (by decide)⟩

/-- C10: once the push request is sent, any received response makes
HttpClient::push return Ok, whatever the status code; only a
transport-level send failure surfaces as an error. -/
theorem c10_push_ok_despite_status (E : Crypto) (sk filename : Bytes) (t : Nat)
    (content : Bytes) (send : PushWire → Except String (Nat × Bytes)) :
    (∀ status bodyText,
      send (clientPushWire E sk filename t content) = .ok (status, bodyText) →
      HttpClient.push (clientPushWire E sk filename t content) send = .ok ()) ∧
    (∀ e, send (clientPushWire E sk filename t content) = .error e →
      HttpClient.push (clientPushWire E sk filename t content) send = .error e) := by
  constructor
  · intro status bodyText h
    unfold HttpClient.push
    rw [h]
  · intro e h
    unfold HttpClient.push
    rw [h]

/-- Witness for C10: a server answering 500 with an error body still
makes push return Ok. -/
theorem c10_push_ok_despite_status_witness :
    (fun _ => Except.ok (500, strBytes "boom") :
        PushWire → Except String (Nat × Bytes)) (clientPushWire trivCrypto skZero (strBytes "a") 0 []) =
      .ok (500, strBytes "boom") ∧
    HttpClient.push (clientPushWire trivCrypto skZero (strBytes "a") 0 [])
      (fun _ => .ok (500, strBytes "boom")) = .ok () :=
  ⟨rfl,
    (c10_push_ok_despite_status trivCrypto skZero (strBytes "a") 0 []
      (fun _ => .ok (500, strBytes "boom"))).1 500 (strBytes "boom") rfl⟩

/-- C1: the traversal name "../../etc/passwd" resolves to a path that
normalizes outside the storage root, yet get_file_paths accepts it:
Path::starts_with compares components without resolving "..", so the
sandbox check the code intends (its own error message says so) does not
reject traversal names. -/
theorem c1_traversal_escape_accepted :
    get_file_paths ⟨true, [strBytes "storage"]⟩ skZero (strBytes "../../etc/passwd") =
      .ok (⟨true, [strBytes "storage", List.replicate 32 49, strBytes "..", strBytes "..",
          strBytes "etc", strBytes "passwd"]⟩,
        ⟨true, [strBytes "storage", List.replicate 32 49, strBytes "..", strBytes "..",
          strBytes "etc", strBytes "passwd.sig"]⟩) ∧
    ¬ insideNorm ⟨true, [strBytes "storage"]⟩
        ⟨true, [strBytes "storage", List.replicate 32 49, strBytes "..", strBytes "..",
          strBytes "etc", strBytes "passwd"]⟩ := by
  constructor
  · decide
  · decide

/-- C8 counterexample: the receiving loop feeds the Hasher before it
appends the chunk, so when the append fails the digest input already
covers a byte the temp file does not hold; were the order
append-then-update as claimed, a failed append could not leave the
digest ahead of the disk. -/
theorem c8_hash_update_precedes_append :
    (processChunk ⟨[], []⟩ [1] false).1.hacc = [1] ∧
    (processChunk ⟨[], []⟩ [1] false).1.disk = [] := by
  decide

/-- C8 amended: per chunk the Hasher is updated first and the chunk then
appended; for every chunk whose append succeeds the digest input and the
on-disk bytes advance together (never diverging for a
successfully-appended chunk), and over a whole error-free stream both
equal the concatenation of the chunks. -/
theorem c8_update_then_append (st : WBState) (chunk : Bytes) :
    ((processChunk st chunk true).1.hacc = st.hacc ++ chunk ∧
      (processChunk st chunk true).1.disk = st.disk ++ chunk) ∧
    ((processChunk st chunk false).1.hacc = st.hacc ++ chunk ∧
      (processChunk st chunk false).1.disk = st.disk) ∧
    (st.hacc = st.disk →
      (processChunk st chunk true).1.hacc = (processChunk st chunk true).1.disk) ∧
    (∀ chunks : List Bytes, write_body st (chunks.map Except.ok) =
      .ok ⟨st.hacc ++ chunks.flatten, st.disk ++ chunks.flatten⟩) := by
  refine ⟨⟨rfl, rfl⟩, ⟨rfl, rfl⟩, ?_, fun chunks => write_body_all_ok chunks st⟩
  intro h
  simp [processChunk, h]

/-- Witness for C8 amended at a concrete in-sync state. -/
theorem c8_update_then_append_witness :
    (⟨[5], [5]⟩ : WBState).hacc = (⟨[5], [5]⟩ : WBState).disk ∧
    (processChunk ⟨[5], [5]⟩ [2] true).1.hacc = (processChunk ⟨[5], [5]⟩ [2] true).1.disk :=
  ⟨rfl, (c8_update_then_append ⟨[5], [5]⟩ [2]).2.2.1 rfl⟩

/-- C7 counterexample: a traversal resource name passes the client-side
starts_with assertion, so on matching signatures the scratch file is
promoted to dl/../evil, which normalizes outside the download
directory. -/
theorem c7_promoted_outside_download_dir :
    pull_promote trivCrypto skZero (strBytes "../evil") dlZ (List.replicate 64 0) [7] [] =
      .ok (⟨false, [strBytes "dl", strBytes "..", strBytes "evil"]⟩,
        [(⟨false, [strBytes "dl", strBytes "..", strBytes "evil"]⟩, [7])]) ∧
    ¬ insideNorm dlZ ⟨false, [strBytes "dl", strBytes "..", strBytes "evil"]⟩ := by
  constructor
  · decide
  · decide

/-- C7 amended: a mismatch between the locally re-derived signature and
the server-asserted one makes pull fail with the scratch file never
promoted; promotion happens only on byte equality, and the destination
is the resource name joined under the download directory, guarded by the
component-wise starts_with assertion (which does not normalize ".."). -/
theorem c7_pull_integrity (E : Crypto) (sk filename : Bytes) (dl : RPath)
    (serverSig received : Bytes) (dfs : SFS) :
    (E.signDigest sk received ≠ serverSig →
      pull_promote E sk filename dl serverSig received dfs = .error "Signature mismatch") ∧
    (∀ dest dfs2, pull_promote E sk filename dl serverSig received dfs = .ok (dest, dfs2) →
      E.signDigest sk received = serverSig ∧
      dest = dl.joinParsed filename ∧
      dest.startsWith dl = true ∧
      dfs2 = fsWrite dfs dest received) := by
  constructor
  · intro h
    unfold pull_promote
    rw [if_neg h]
  · intro dest dfs2 h
    unfold pull_promote at h
    by_cases h1 : E.signDigest sk received = serverSig
    · rw [if_pos h1] at h
      by_cases h2 : (dl.joinParsed filename).startsWith dl = true
      · rw [if_pos h2] at h
        rw [Except.ok.injEq, Prod.mk.injEq] at h
        obtain ⟨hd, hf⟩ := h
        subst hd
        subst hf
        exact ⟨h1, rfl, h2, rfl⟩
      · rw [if_neg h2] at h
        cases h
    · rw [if_neg h1] at h
      cases h

/-- Witness for C7 amended: a tampered signature header is rejected and
nothing is written to the download tree. -/
theorem c7_pull_integrity_witness :
    trivCrypto.signDigest skZero [7] ≠ List.replicate 64 1 ∧
    pull_promote trivCrypto skZero (strBytes "a") dlZ (List.replicate 64 1) [7] [] =
      .error "Signature mismatch" :=
  ⟨by decide,
    (c7_pull_integrity trivCrypto skZero (strBytes "a") dlZ (List.replicate 64 1) [7] []).1
      (by decide)⟩

theorem withExtension_concat (a : Bool) (X : List Bytes) (c ext : Bytes) (hdd : c ≠ [46, 46]) :
    RPath.withExtension ⟨a, X ++ [c]⟩ ext = ⟨a, X ++ [setExtComp c ext]⟩ := by
  unfold RPath.withExtension
  rw [List.getLast?_concat]
  simp only [if_neg hdd]
  rw [List.dropLast_concat]

/-- C9 counterexample: the resource name ".sig" ends in ".sig" but its
payload path is not its own signature path, because file_stem treats a
leading dot with no other dot as the whole stem and set_extension then
appends, giving ".sig.sig". -/
theorem c9_dot_sig_not_self :
    get_file_paths storZ skZero (strBytes ".sig") =
      .ok (⟨true, [strBytes "st", List.replicate 32 49, strBytes ".sig"]⟩,
        ⟨true, [strBytes "st", List.replicate 32 49, strBytes ".sig.sig"]⟩) ∧
    (⟨true, [strBytes "st", List.replicate 32 49, strBytes ".sig"]⟩ : RPath) ≠
      ⟨true, [strBytes "st", List.replicate 32 49, strBytes ".sig.sig"]⟩ := by
  constructor
  · decide
  · decide

/-- C9 amended: the signature path is not injective in the resource name
(distinct names "a.txt" and "a.bin" resolve to the same signature path);
and every resource name whose final component carries extension "sig" in
the Rust sense (a non-empty stem before the final ".sig", so "a.sig" but
not ".sig") resolves to a payload path equal to its own signature path,
in which case committing the upload writes the signature file and then
renames the payload over it, leaving the payload bytes at that path. -/
theorem c9_sig_path_collision (storage : RPath) (pubkey : Bytes)
    (hp : ∀ x ∈ pubkey, x < 256) (hpne : pubkey ≠ []) :
    (∀ p1 sp1 p2 sp2,
      get_file_paths storage pubkey (strBytes "a.txt") = .ok (p1, sp1) →
      get_file_paths storage pubkey (strBytes "a.bin") = .ok (p2, sp2) →
      p1 ≠ p2 ∧ sp1 = sp2) ∧
    (∀ f p sp c, get_file_paths storage pubkey f = .ok (p, sp) →
      p.comps.getLast? = some c → extOf c = some SIG_EXT → sp = p) ∧
    (∀ fs f sig content p sp, get_file_paths storage pubkey f = .ok (p, sp) → sp = p →
      p.comps ≠ [] →
      FileWriter.finalize fs storage f pubkey sig content =
        .ok (fsWrite (fsWrite fs p sig) p content) ∧
      fsRead (fsWrite (fsWrite fs p sig) p content) p = some content) := by
  refine ⟨?_, ?_, ?_⟩
  · intro p1 sp1 p2 sp2 h1 h2
    have hr1 := get_file_paths_rel storage pubkey (strBytes "a.txt") hp hpne (by decide)
    have hr2 := get_file_paths_rel storage pubkey (strBytes "a.bin") hp hpne (by decide)
    rw [h1, Except.ok.injEq, Prod.mk.injEq] at hr1
    rw [h2, Except.ok.injEq, Prod.mk.injEq] at hr2
    have hpt : parseRPath (strBytes "a.txt") = ⟨false, [strBytes "a.txt"]⟩ := by decide
    have hpb : parseRPath (strBytes "a.bin") = ⟨false, [strBytes "a.bin"]⟩ := by decide
    rw [hpt] at hr1
    rw [hpb] at hr2
    obtain ⟨hp1e, hsp1e⟩ := hr1
    obtain ⟨hp2e, hsp2e⟩ := hr2
    constructor
    · rw [hp1e, hp2e]
      intro hcontra
      rw [RPath.mk.injEq] at hcontra
      have := List.append_cancel_left hcontra.2
      have hx := (List.cons.inj this).1
      exact absurd hx (by decide)
    · rw [hsp1e, hsp2e]
      dsimp only
      rw [withExtension_concat _ _ _ _ (by decide), withExtension_concat _ _ _ _ (by decide)]
      have hse : setExtComp (strBytes "a.txt") SIG_EXT = setExtComp (strBytes "a.bin") SIG_EXT := by
        decide
      rw [hse]
  · intro f p sp c hg hlast hext
    have hdd : c ≠ [46, 46] := by
      intro hc
      rw [hc] at hext
      exact absurd hext (by decide)
    have hsp := get_file_paths_ok_snd storage pubkey f p sp hg
    rw [hsp, withExtension_self p c hlast hdd hext]
  · intro fs f sig content p sp hg hspp hnn
    constructor
    · have hfin := finalize_eq fs storage f pubkey sig content p sp hg hnn
      rw [hspp] at hfin
      exact hfin
    · exact fsRead_write_self _ p content

/-- Witness for C9 amended at the name "a.sig" under the concrete root:
its payload and signature paths coincide. -/
theorem c9_sig_path_collision_witness :
    skZero ≠ [] ∧
    (⟨true, [strBytes "st", List.replicate 32 49, strBytes "a.sig"]⟩ : RPath) =
      ⟨true, [strBytes "st", List.replicate 32 49, strBytes "a.sig"]⟩ :=
  ⟨by decide,
    (c9_sig_path_collision storZ skZero (by decide) (by decide)).2.1 (strBytes "a.sig")
      ⟨true, [strBytes "st", List.replicate 32 49, strBytes "a.sig"]⟩
      ⟨true, [strBytes "st", List.replicate 32 49, strBytes "a.sig"]⟩
      (strBytes "a.sig") (by decide) (by decide) (by decide)⟩

/-- C4 counterexample: an upload whose commit step fails after streaming
(here: an absolute resource name rejected by the resolver inside
finalize) leaves the temporary file behind, because finalize takes the
temp-file handle out of the writer before its first fallible step, so
the Drop cleanup no longer sees it: cleanup does not run on this exit
path. -/
theorem c4_finalize_error_keeps_temp :
    (pushExchange trivCrypto skZero (strBytes "/etc/x") 0 0 [7] storZ []).response =
      .error "Trying to get path outside storage directory" ∧
    (pushExchange trivCrypto skZero (strBytes "/etc/x") 0 0 [7] storZ []).fs = [] ∧
    (pushExchange trivCrypto skZero (strBytes "/etc/x") 0 0 [7] storZ []).tempLeft = true := by
  refine ⟨?_, ?_, ?_⟩ <;> decide

/-- C4 amended: for the two claimed failure modes — a stream error while
receiving, or a payload-signature digest mismatch once the stream ends —
the upload is rejected, the storage tree is untouched (no artifact at
any final path) and no temporary file remains: drop_temp_file runs on
the explicit stream-error branch and the Drop impl covers the
digest-failure exit; only a failure inside finalize, after the handle
was taken, escapes cleanup. -/
theorem c4_failed_upload_clean (E : Crypto) (now : Nat) (storage : RPath)
    (filename pubkeyB58 : Bytes) (t : Nat) (reqSigB58 fileSigB58 : Bytes)
    (body : List (Except String Bytes)) (fs : SFS) (pk reqSig fileSig : Bytes)
    (hpk : decodePubkeyB58 pubkeyB58 = .ok pk)
    (hrs : decodeSignatureB58 reqSigB58 = .ok reqSig)
    (hfs : decodeSignatureB58 fileSigB58 = .ok fileSig)
    (hchk : check_signature E now ⟨filename, pk, t⟩ reqSig = .ok ())
    (hfail : (∃ e st, write_body ⟨[], []⟩ body = .error (e, st)) ∨
      (∃ st, write_body ⟨[], []⟩ body = .ok st ∧ E.verifyDigest pk st.hacc fileSig = false)) :
    (∃ e, (upload_internal E now storage filename pubkeyB58 t reqSigB58 fileSigB58
      body fs).response = .error e) ∧
    (upload_internal E now storage filename pubkeyB58 t reqSigB58 fileSigB58 body fs).fs = fs ∧
    (upload_internal E now storage filename pubkeyB58 t reqSigB58 fileSigB58
      body fs).tempLeft = false := by
  rcases hfail with ⟨e, st, hwb⟩ | ⟨st, hwb, hver⟩
  · have hred : upload_internal E now storage filename pubkeyB58 t reqSigB58 fileSigB58
        body fs = ⟨.error e, fs, false⟩ := by
      simp only [upload_internal, hpk, hrs, hfs, hchk, hwb]
    rw [hred]
    exact ⟨⟨e, rfl⟩, rfl, rfl⟩
  · have hred : upload_internal E now storage filename pubkeyB58 t reqSigB58 fileSigB58
        body fs = ⟨.error "Digest verification failed", fs, false⟩ := by
      simp only [upload_internal, hpk, hrs, hfs, hchk, hwb, hver]
      simp
    rw [hred]
    exact ⟨⟨_, rfl⟩, rfl, rfl⟩

/-- Witness for C4 amended: a digest mismatch on a one-chunk upload is
rejected with the storage tree unchanged and no leftover temp file. -/
theorem c4_failed_upload_clean_witness :
    check_signature trivCrypto 0 ⟨strBytes "a", skZero, 0⟩ (List.replicate 64 0) = .ok () ∧
    ((∃ e, (upload_internal trivCrypto 0 storZ (strBytes "a") (bs58encode skZero) 0
        (bs58encode (List.replicate 64 0)) (bs58encode (List.replicate 63 0 ++ [1]))
        [.ok [7]] []).response = .error e) ∧
      (upload_internal trivCrypto 0 storZ (strBytes "a") (bs58encode skZero) 0
        (bs58encode (List.replicate 64 0)) (bs58encode (List.replicate 63 0 ++ [1]))
        [.ok [7]] []).fs = [] ∧
      (upload_internal trivCrypto 0 storZ (strBytes "a") (bs58encode skZero) 0
        (bs58encode (List.replicate 64 0)) (bs58encode (List.replicate 63 0 ++ [1]))
        [.ok [7]] []).tempLeft = false) :=
  ⟨by decide,
    c4_failed_upload_clean trivCrypto 0 storZ (strBytes "a") (bs58encode skZero) 0
      (bs58encode (List.replicate 64 0)) (bs58encode (List.replicate 63 0 ++ [1]))
      [.ok [7]] [] skZero (List.replicate 64 0) (List.replicate 63 0 ++ [1])
      (by decide) (by decide) (by decide) (by decide)
      (.inr ⟨⟨[7], [7]⟩, by decide, by decide⟩)⟩

/-- C6 counterexample: with the signature file present (shared with
resource "name.bin" via the extension-replacing resolver) but the
payload "name.txt" absent, download_internal returns an Ok response —
status 200 with the signature header — whose payload body only fails
when the lazily opened stream is polled; the claimed not-found error is
never produced. -/
theorem c6_missing_payload_gets_ok :
    download_internal trivCrypto 0 storZ (strBytes "name.txt") (bs58encode skZero) 0
      (bs58encode (List.replicate 64 0))
      [(⟨true, [strBytes "st", List.replicate 32 49, strBytes "name.sig"]⟩,
        List.replicate 64 0)] =
      .ok ⟨List.replicate 64 49, none⟩ ∧
    statusOf (download_internal trivCrypto 0 storZ (strBytes "name.txt") (bs58encode skZero) 0
      (bs58encode (List.replicate 64 0))
      [(⟨true, [strBytes "st", List.replicate 32 49, strBytes "name.sig"]⟩,
        List.replicate 64 0)]) = 200 := by
  constructor
  · decide
  · decide

/-- C6 amended: past request verification, a missing signature file
makes download an error (served as status 500, not a 404); when the
signature file exists the response is Ok carrying the stored signature
and the payload read of the resolved path, whose stream fails if that
file is missing — never some other file. Distinct identities get
distinct base-58 directories (the encoding is injective on 32-byte
keys), so for resource names that resolve relatively no two identities
share a payload path. -/
theorem c6_download_missing_artifact (E : Crypto) (now : Nat) (storage : RPath)
    (filename pubkeyB58 : Bytes) (t : Nat) (reqSigB58 : Bytes) (fs : SFS)
    (pk reqSig : Bytes) (p sp : RPath)
    (hpk : decodePubkeyB58 pubkeyB58 = .ok pk)
    (hrs : decodeSignatureB58 reqSigB58 = .ok reqSig)
    (hchk : check_signature E now ⟨filename, pk, t⟩ reqSig = .ok ())
    (hgfp : get_file_paths storage pk filename = .ok (p, sp)) :
    (fsRead fs sp = none →
      statusOf (download_internal E now storage filename pubkeyB58 t reqSigB58 fs) = 500) ∧
    (∀ sig, fsRead fs sp = some sig →
      download_internal E now storage filename pubkeyB58 t reqSigB58 fs =
        .ok ⟨bs58encode sig, fsRead fs p⟩) ∧
    (∀ pk2 f2 p2 sp2, (∀ x ∈ pk, x < 256) → pk.length = 32 →
      (∀ x ∈ pk2, x < 256) → pk2.length = 32 → pk2 ≠ pk →
      (parseRPath filename).absolute = false → (parseRPath f2).absolute = false →
      get_file_paths storage pk2 f2 = .ok (p2, sp2) → p2 ≠ p) := by
  refine ⟨?_, ?_, ?_⟩
  · intro h
    have hred : download_internal E now storage filename pubkeyB58 t reqSigB58 fs =
        .error "No such file or directory" := by
      simp only [download_internal, hpk, hrs, hchk, hgfp, h]
    rw [hred]
    rfl
  · intro sig h
    simp only [download_internal, hpk, hrs, hchk, hgfp, h]
  · intro pk2 f2 p2 sp2 hb1 hl1 hb2 hl2 hnepk hrel1 hrel2 hg2
    have hpne : pk ≠ [] := by
      intro h0
      rw [h0] at hl1
      cases hl1
    have hpne2 : pk2 ≠ [] := by
      intro h0
      rw [h0] at hl2
      cases hl2
    have hr1 := get_file_paths_rel storage pk filename hb1 hpne hrel1
    have hr2 := get_file_paths_rel storage pk2 f2 hb2 hpne2 hrel2
    rw [hgfp, Except.ok.injEq, Prod.mk.injEq] at hr1
    rw [hg2, Except.ok.injEq, Prod.mk.injEq] at hr2
    intro hcontra
    rw [hr2.1, hr1.1, RPath.mk.injEq] at hcontra
    have hcomps := hcontra.2
    rw [List.append_assoc, List.append_assoc] at hcomps
    have htail := List.append_cancel_left hcomps
    have hhead := (List.cons.inj htail).1
    exact hnepk (bs58encode_inj hb2 hb1 hhead)

/-- Witness for C6 amended: with an empty storage tree the signature
read fails and the response status is 500. -/
theorem c6_download_missing_artifact_witness :
    fsRead [] (⟨true, [strBytes "st", List.replicate 32 49, strBytes "a.sig"]⟩ : RPath) = none ∧
    statusOf (download_internal trivCrypto 0 storZ (strBytes "a.txt") (bs58encode skZero) 0
      (bs58encode (List.replicate 64 0)) []) = 500 :=
  ⟨rfl,
    (c6_download_missing_artifact trivCrypto 0 storZ (strBytes "a.txt") (bs58encode skZero) 0
      (bs58encode (List.replicate 64 0)) [] skZero (List.replicate 64 0)
      ⟨true, [strBytes "st", List.replicate 32 49, strBytes "a.txt"]⟩
      ⟨true, [strBytes "st", List.replicate 32 49, strBytes "a.sig"]⟩
      (by decide) (by decide) (by decide) (by decide)).1 rfl⟩

/-- C2 counterexample: for the resource name "a.sig" the push succeeds —
the server commits by writing the signature file and then renaming the
payload onto the same path — but the subsequent pull fails (the
signature header carries the payload bytes, which are not a 64-byte
signature), so push-then-pull does not yield the content for every
resource name. -/
theorem c2_sig_name_breaks_roundtrip :
    (pushExchange trivCrypto skZero (strBytes "a.sig") 0 0 [7] storZ []).response = .ok () ∧
    pullExchange trivCrypto skZero (strBytes "a.sig") 0 0 storZ
        (pushExchange trivCrypto skZero (strBytes "a.sig") 0 0 [7] storZ []).fs dlZ [] =
      .error "signature: wrong length" := by
  constructor
  · decide
  · decide

/-- C2 amended: for every identity, content, and resource name that
parses as a relative path and resolves to distinct payload and signature
paths, an honest push (fresh timestamp, signatures produced with the
matching secret key) is accepted and committed, and a subsequent honest
pull returns exactly the original content, promoted to the resource name
joined under the download directory. -/
theorem c2_push_pull_roundtrip (E : Crypto) (sk filename content : Bytes)
    (t1 now1 t2 now2 : Nat) (storage dl : RPath) (fs dfs : SFS) (p sp : RPath)
    (hpk32 : (E.pkOf sk).length = 32)
    (hpkb : ∀ x ∈ E.pkOf sk, x < 256)
    (hs64 : ∀ m, (E.signStrict sk m).length = 64)
    (hsb : ∀ m x, x ∈ E.signStrict sk m → x < 256)
    (hd64 : (E.signDigest sk content).length = 64)
    (hdb : ∀ x ∈ E.signDigest sk content, x < 256)
    (hverS : ∀ m, E.verifyStrict (E.pkOf sk) m (E.signStrict sk m) = true)
    (hverD : E.verifyDigest (E.pkOf sk) content (E.signDigest sk content) = true)
    (hf1 : absDiff now1 t1 ≤ MAX_CLIENT_TIME_DIFF)
    (hf2 : absDiff now2 t2 ≤ MAX_CLIENT_TIME_DIFF)
    (hrel : (parseRPath filename).absolute = false)
    (hgfp : get_file_paths storage (E.pkOf sk) filename = .ok (p, sp))
    (hnesp : sp ≠ p) :
    pushExchange E sk filename t1 now1 content storage fs =
      ⟨.ok (), fsWrite (fsWrite fs sp (E.signDigest sk content)) p content, false⟩ ∧
    pullExchange E sk filename t2 now2 storage
        (fsWrite (fsWrite fs sp (E.signDigest sk content)) p content) dl dfs =
      .ok (dl.joinParsed filename, fsWrite dfs (dl.joinParsed filename) content, content) := by
  have hpne : E.pkOf sk ≠ [] := by
    intro h0
    rw [h0] at hpk32
    cases hpk32
  have hr0 := get_file_paths_rel storage (E.pkOf sk) filename hpkb hpne hrel
  rw [hgfp, Except.ok.injEq, Prod.mk.injEq] at hr0
  have hpcne : p.comps ≠ [] := by
    rw [hr0.1]
    simp
  have hdpk := decodePubkeyB58_encode (E.pkOf sk) hpkb hpk32
  have hdfs := decodeSignatureB58_encode (E.signDigest sk content) hdb hd64
  constructor
  · have hdrs := decodeSignatureB58_encode
      (E.signStrict sk (serialize_borsh ⟨filename, E.pkOf sk, t1⟩))
      (fun x hx => hsb _ x hx) (hs64 _)
    have hchk := check_signature_ok E now1 ⟨filename, E.pkOf sk, t1⟩ _ hf1 (hverS _)
    have hfin := finalize_eq fs storage filename (E.pkOf sk) (E.signDigest sk content)
      content p sp hgfp hpcne
    simp only [pushExchange, clientPushWire, upload_internal, hdpk, hdrs, hdfs, hchk,
      write_body_single, hverD, hfin]
    simp
  · have hdrs := decodeSignatureB58_encode
      (E.signStrict sk (serialize_borsh ⟨filename, E.pkOf sk, t2⟩))
      (fun x hx => hsb _ x hx) (hs64 _)
    have hchk := check_signature_ok E now2 ⟨filename, E.pkOf sk, t2⟩ _ hf2 (hverS _)
    have hreadsp : fsRead (fsWrite (fsWrite fs sp (E.signDigest sk content)) p content) sp =
        some (E.signDigest sk content) := by
      rw [fsRead_write_other _ sp p content (fun h => hnesp h.symm)]
      exact fsRead_write_self fs sp _
    have hreadp : fsRead (fsWrite (fsWrite fs sp (E.signDigest sk content)) p content) p =
        some content := fsRead_write_self _ p content
    have hdl : download_internal E now2 storage filename (bs58encode (E.pkOf sk)) t2
        (bs58encode (E.signStrict sk (serialize_borsh ⟨filename, E.pkOf sk, t2⟩)))
        (fsWrite (fsWrite fs sp (E.signDigest sk content)) p content) =
        .ok ⟨bs58encode (E.signDigest sk content), some content⟩ := by
      simp only [download_internal, hdrs, hdpk, hchk, hgfp, hreadsp, hreadp]
    have hjoin : dl.joinParsed filename =
        ⟨dl.absolute, dl.comps ++ (parseRPath filename).comps⟩ :=
      joinParsed_of_rel dl filename hrel
    have hsw : (dl.joinParsed filename).startsWith dl = true := by
      rw [hjoin]
      exact startsWith_append dl.absolute dl.comps (parseRPath filename).comps
    simp only [pullExchange, hdl, hdfs, pull_promote, if_pos rfl, hsw, if_true]

/-- Witness for C2 amended at concrete inputs: pushing "a.txt" with
content [7] commits payload and signature, and the pull returns [7] into
the download directory. -/
theorem c2_push_pull_roundtrip_witness :
    (⟨true, [strBytes "st", List.replicate 32 49, strBytes "a.sig"]⟩ : RPath) ≠
      ⟨true, [strBytes "st", List.replicate 32 49, strBytes "a.txt"]⟩ ∧
    (pushExchange trivCrypto skZero (strBytes "a.txt") 0 0 [7] storZ [] =
      ⟨.ok (), fsWrite (fsWrite []
          (⟨true, [strBytes "st", List.replicate 32 49, strBytes "a.sig"]⟩ : RPath)
          (trivCrypto.signDigest skZero [7]))
        (⟨true, [strBytes "st", List.replicate 32 49, strBytes "a.txt"]⟩ : RPath) [7],
        false⟩ ∧
      pullExchange trivCrypto skZero (strBytes "a.txt") 0 0 storZ
          (fsWrite (fsWrite []
              (⟨true, [strBytes "st", List.replicate 32 49, strBytes "a.sig"]⟩ : RPath)
              (trivCrypto.signDigest skZero [7]))
            (⟨true, [strBytes "st", List.replicate 32 49, strBytes "a.txt"]⟩ : RPath) [7])
          dlZ [] =
        .ok (dlZ.joinParsed (strBytes "a.txt"),
          fsWrite [] (dlZ.joinParsed (strBytes "a.txt")) [7], [7])) :=
  ⟨by decide,
    c2_push_pull_roundtrip trivCrypto skZero (strBytes "a.txt") [7] 0 0 0 0 storZ dlZ [] []
      ⟨true, [strBytes "st", List.replicate 32 49, strBytes "a.txt"]⟩
      ⟨true, [strBytes "st", List.replicate 32 49, strBytes "a.sig"]⟩
      (by decide) (by decide) (fun _ => rfl)
      (fun _ x hx => by
        have := List.eq_of_mem_replicate hx
        omega)
      (by decide)
      (fun x hx => by
        have := List.eq_of_mem_replicate hx
        omega)
      (fun _ => rfl) (by decide) (by decide) (by decide) (by decide) (by decide)
      (by decide)⟩
